import Mathlib

/-!
# Verification of the Archivea reader backend (backend/app/main.py)

Shallow embedding of the document-library backend: the upload classifier
`is_zip_upload`, the ZIP page extractor `extract_zip_jpgs`, and the page
listing / page content endpoints `list_zip_pages`, `get_zip_page_content`.

Machine strings are modelled as Lean `String` (Unicode code points, compared
lexicographically, as in Python); `.lower()` is modelled by `Char.toLower`
(exact for ASCII filenames).  Python's `sorted` is a stable merge sort and is
modelled by `List.mergeSort`.  The filesystem is modelled as association
lists `(filename, bytes)`.
-/

set_option maxHeartbeats 1000000

namespace Archivea

/-! ## Path helpers, mirroring Python `pathlib.PurePosixPath` -/

/-- Split a character list at `/` (Python `s.split('/')`); always returns
at least one (possibly empty) component. -/
def splitSlash : List Char → List (List Char)
  | [] => [[]]
  | c :: cs =>
    match splitSlash cs, c == '/' with
    | r, true => [] :: r
    | [], false => [[c]]
    | p :: rest, false => (c :: p) :: rest

/-- The path components of a POSIX path: split on `/`, dropping empty
components and `.` components (pathlib normalises both away). -/
def pathComponents (s : String) : List (List Char) :=
  (splitSlash s.data).filter (fun c => !c.isEmpty && c ≠ ['.'])

/-- `Path(s).name`: the final path component, `""` when there is none. -/
def pathName (s : String) : String :=
  String.mk (((pathComponents s).getLast?).getD [])

/-- Index of the last `.` in a list of characters (Python `str.rfind('.')`),
`none` when absent. -/
def lastDot (cs : List Char) : Option Nat :=
  ((List.range cs.length).filter (fun i => cs.getD i ' ' == '.')).getLast?

/-- `Path(s).suffix`: the extension of the final component, including the
dot; empty when the name has no dot, starts with its only dot, or ends with
the dot (pathlib: `0 < i < len(name) - 1`). -/
def pathSuffix (s : String) : String :=
  let name := (pathName s).toList
  match lastDot name with
  | none => ""
  | some i => if 0 < i && i + 1 < name.length then String.mk (name.drop i) else ""

/-- Python `str.lower()` (exact on ASCII, which is all the claims use). -/
def lowerStr (s : String) : String := String.mk (s.data.map Char.toLower)

/-! ## String comparison

Python compares strings lexicographically by code point; so does Lean's
`String` order (`s < t` is `List.lt` on the underlying character lists).
The library's decision procedure `String.ltb` is written against string
iterators and does not reduce in the kernel, so we use an equivalent
structural comparison on the character lists and prove it agrees with
`String.le`. -/

/-- Structural lexicographic strict comparison of character lists. -/
def listLTb : List Char → List Char → Bool
  | [], [] => false
  | [], _ :: _ => true
  | _ :: _, [] => false
  | a :: as, b :: bs =>
    if a < b then true else if b < a then false else listLTb as bs

/-- Lexicographic `≤` on strings (`String.le s t` is `¬ t < s`). -/
def strLE (s t : String) : Bool := !(listLTb t.data s.data)

theorem listLTb_iff : ∀ as bs : List Char, listLTb as bs = true ↔ List.lt as bs
  | [], [] => by
    simp only [listLTb, Bool.false_eq_true, false_iff]
    intro h; cases h
  | [], _ :: _ => by
    simp only [listLTb, true_iff]
    exact List.lt.nil _ _
  | _ :: _, [] => by
    simp only [listLTb, Bool.false_eq_true, false_iff]
    intro h; cases h
  | a :: as, b :: bs => by
    simp only [listLTb]
    by_cases hab : a < b
    · simp only [if_pos hab, true_iff]
      exact List.lt.head _ _ hab
    · by_cases hba : b < a
      · simp only [if_neg hab, if_pos hba, Bool.false_eq_true, false_iff]
        intro h
        cases h with
        | head _ _ h => exact hab h
        | tail h₁ h₂ _ => exact h₂ hba
      · simp only [if_neg hab, if_neg hba]
        rw [listLTb_iff as bs]
        constructor
        · exact fun h => List.lt.tail hab hba h
        · intro h
          cases h with
          | head _ _ h => exact absurd h hab
          | tail _ _ h => exact h

theorem strLE_iff (s t : String) : strLE s t = true ↔ s ≤ t := by
  show (!(listLTb t.data s.data)) = true ↔ ¬ t < s
  rw [Bool.not_eq_true', ← Bool.not_eq_true]
  apply not_congr
  rw [listLTb_iff, String.lt_iff_toList_lt]
  exact List.lt_iff_lex_lt _ _

/-- A `DecidableEq` instance for `Except`, so concrete outcomes can be
settled by `decide`. -/
def exceptDecEq {ε α : Type} [DecidableEq ε] [DecidableEq α] :
    (x y : Except ε α) → Decidable (x = y)
  | .error e, .error f =>
    if h : e = f then isTrue (congrArg Except.error h)
    else isFalse (by simp [h])
  | .error _, .ok _ => isFalse (by simp)
  | .ok _, .error _ => isFalse (by simp)
  | .ok a, .ok b =>
    if h : a = b then isTrue (congrArg Except.ok h)
    else isFalse (by simp [h])

instance {ε α : Type} [DecidableEq ε] [DecidableEq α] : DecidableEq (Except ε α) :=
  exceptDecEq

/-! ## Data model -/

/-- One member of a ZIP archive, as seen through `zipfile.ZipInfo`:
its archive path, whether it is a directory entry, and its raw bytes. -/
structure ZipEntry where
  filename : String
  is_dir : Bool
  data : List Nat
deriving DecidableEq

/-- An HTTP error response (`HTTPException(status_code, detail)`). -/
structure HTTPError where
  status : Nat
  detail : String
deriving DecidableEq

/-- A row of the `Document` table (the id and timestamp are assigned by the
database and not modelled). -/
structure Document where
  title : String
  mime_type : String
  extension : String
  stored_name : String
deriving DecidableEq

/-- An uploaded file as FastAPI presents it: declared filename and
content type, the raw bytes, and the archive members the bytes parse to
when read as a ZIP archive. -/
structure UploadFile where
  filename : Option String
  content_type : String
  content : List Nat
  zipEntries : List ZipEntry

/-- `main.py` line 16: the ZIP MIME-type allow-set. -/
def ZIP_MIME_TYPES : List String :=
  ["application/zip", "application/x-zip-compressed", "multipart/x-zip"]

/-- `is_zip_upload` (main.py lines 57-59). -/
def is_zip_upload (file : UploadFile) : Bool :=
  ZIP_MIME_TYPES.contains file.content_type
    || lowerStr (pathSuffix (file.filename.getD "")) == ".zip"

/-! ## The ZIP page extractor (main.py lines 62-83) -/

/-- The filter of line 64-68: non-directory entries whose extension,
lowercased, is `.jpg` or `.jpeg`. -/
def isJpgEntry (e : ZipEntry) : Bool :=
  !e.is_dir
    && (lowerStr (pathSuffix e.filename) == ".jpg"
        || lowerStr (pathSuffix e.filename) == ".jpeg")

/-- `candidates` (main.py line 64). -/
def candidates (entries : List ZipEntry) : List ZipEntry :=
  entries.filter isJpgEntry

/-- The sort key of line 73: `Path(item.filename).name.lower()`. -/
def sortKey (e : ZipEntry) : String := lowerStr (pathName e.filename)

/-- The comparison `sorted` uses on line 73: lexicographic `≤` of keys. -/
def keyLE (a b : ZipEntry) : Bool := strLE (sortKey a) (sortKey b)

/-- `sorted_members` (main.py line 73): Python `sorted` is a stable merge
sort, modelled by `List.mergeSort`. -/
def sortedMembers (entries : List ZipEntry) : List ZipEntry :=
  (candidates entries).mergeSort keyLE

/-- Fuel-driven digit accumulator: the fuel only bounds the recursion
depth, `natDigits` below always supplies enough. -/
def natDigitsAux : Nat → Nat → List Char
  | 0, _ => []
  | fuel + 1, n =>
    if n < 10 then [Nat.digitChar n]
    else natDigitsAux fuel (n / 10) ++ [Nat.digitChar (n % 10)]

/-- The decimal digits of `n`, most significant first (the digits of
Python's `repr`/`format` of a nonnegative int). -/
def natDigits (n : Nat) : List Char := natDigitsAux (n + 1) n

theorem natDigitsAux_fuel : ∀ f₁ : Nat, ∀ f₂ n : Nat, n < f₁ → n < f₂ →
    natDigitsAux f₁ n = natDigitsAux f₂ n := by
  intro f₁
  induction f₁ with
  | zero => intro f₂ n h₁ _; omega
  | succ k ih =>
    intro f₂ n h₁ h₂
    match f₂ with
    | 0 => omega
    | m + 1 =>
      simp only [natDigitsAux]
      by_cases h : n < 10
      · simp [h]
      · simp only [if_neg h]
        have hd : n / 10 < n := Nat.div_lt_self (by omega) (by omega)
        rw [ih m (n / 10) (by omega) (by omega)]

/-- Unfolding rule for `natDigits` on small inputs. -/
theorem natDigits_lt {n : Nat} (h : n < 10) : natDigits n = [Nat.digitChar n] := by
  simp [natDigits, natDigitsAux, h]

/-- Unfolding rule for `natDigits` on large inputs. -/
theorem natDigits_ge {n : Nat} (h : 10 ≤ n) :
    natDigits n = natDigits (n / 10) ++ [Nat.digitChar (n % 10)] := by
  have e1 : natDigits n =
      if n < 10 then [Nat.digitChar n]
      else natDigitsAux n (n / 10) ++ [Nat.digitChar (n % 10)] := rfl
  rw [e1, if_neg (by omega : ¬ n < 10),
    natDigitsAux_fuel n (n / 10 + 1) (n / 10) (by omega) (by omega)]
  rfl

/-- `f"{index:06d}"`: the decimal digits left-padded with `'0'` to width 6. -/
def fmt06 (n : Nat) : List Char :=
  List.replicate (6 - (natDigits n).length) '0' ++ natDigits n

/-- `page_name` (main.py line 77): `f"{index:06d}.jpg"`. -/
def pageName (i : Nat) : String := String.mk (fmt06 i) ++ ".jpg"

/-- `extract_zip_jpgs` (main.py lines 62-83).  Returns the files written
into the output directory (name, bytes) and the outcome: the list of
original base filenames, or the HTTP 400 raised on line 71.  The exception
is raised before the write loop, so the error branch writes no files. -/
def extract_zip_jpgs (entries : List ZipEntry) :
    List (String × List Nat) × Except HTTPError (List String) :=
  if (candidates entries).isEmpty then
    ([], .error ⟨400, "ZIP must contain at least one JPG file"⟩)
  else
    let ms := sortedMembers entries
    (ms.enum.map (fun p => (pageName p.1, p.2.data)),
     .ok (ms.map (fun m => pathName m.filename)))

/-! ## The upload endpoint (main.py lines 96-148)

The filesystem side effects are modelled by returning the list of files
that end up on disk, as `(path, bytes)` pairs; the metadata row by the
returned `Document`.  An error outcome means the request is rejected
before any row is created (`session.add`/`commit` run last). -/

/-- The allow-set of line 102: `{"application/pdf", "image/jpeg", *ZIP_MIME_TYPES}`. -/
def allowedTypes : List String :=
  "application/pdf" :: "image/jpeg" :: ZIP_MIME_TYPES

/-- `upload_document` (main.py lines 96-148).  `stored0` stands for the
random `uuid4().hex` of line 105.  For a ZIP upload, the temporary
archive copy is deleted in the `finally` of line 117, so only the page
files remain on disk (inside the `stored0` directory). -/
def upload_document (title : String) (stored0 : String) (file : UploadFile) :
    Except HTTPError (Document × List (String × List Nat)) :=
  if !allowedTypes.contains file.content_type && !is_zip_upload file then
    .error ⟨400, "Only PDF/JPG/ZIP(JPG) are supported"⟩
  else if is_zip_upload file then
    match extract_zip_jpgs file.zipEntries with
    | (_, .error e) => .error e
    | (pages, .ok _) =>
      .ok (⟨title, "application/zip", ".zip", stored0⟩,
           pages.map (fun p => (stored0 ++ "/" ++ p.1, p.2)))
  else if file.content_type == "application/pdf" then
    .ok (⟨title, "application/pdf", ".pdf", stored0 ++ ".pdf"⟩,
         [(stored0 ++ ".pdf", file.content)])
  else
    .ok (⟨title, "image/jpeg", ".jpg", stored0 ++ ".jpg"⟩,
         [(stored0 ++ ".jpg", file.content)])

/-! ## Page listing and page content (main.py lines 181-217) -/

/-- One element of the page-listing response. -/
structure ZipPageRead where
  index : Nat
  filename : String
  content_url : String
deriving DecidableEq

/-- `pages_dir.glob("*.jpg")` membership: `pathlib` matches the fnmatch
translation of `*.jpg`, i.e. any name ending in `.jpg` (pathlib's glob
does not special-case dotfiles). -/
def globJpg (name : String) : Bool := ".jpg".data.isSuffixOf name.data

/-- Comparison used by `sorted(..., key=lambda item: item.name)`. -/
def nameLE (a b : String × List Nat) : Bool := strLE a.1 b.1

/-- The sorted page list both endpoints derive (main.py lines 193 and
213): all `*.jpg` files of the page directory, sorted by filename.
A directory is an association list of `(filename, bytes)`. -/
def pageFiles (dir : List (String × List Nat)) : List (String × List Nat) :=
  (dir.filter (fun p => globJpg p.1)).mergeSort nameLE

/-- The content URL of line 198. -/
def contentUrl (document_id index : Nat) : String :=
  "/documents/" ++ String.mk (natDigits document_id) ++ "/pages/"
    ++ String.mk (natDigits index) ++ "/content"

/-- `list_zip_pages` (main.py lines 181-201).  `doc` is the result of the
id lookup (`none` = no row); `dir` is the page directory (`none` = absent
or not a directory). -/
def list_zip_pages (document_id : Nat) (doc : Option Document)
    (dir : Option (List (String × List Nat))) : Except HTTPError (List ZipPageRead) :=
  match doc with
  | none => .error ⟨404, "Document not found"⟩
  | some d =>
    if d.mime_type ≠ "application/zip" then .error ⟨400, "Document is not ZIP"⟩
    else
      match dir with
      | none => .error ⟨404, "ZIP pages not found"⟩
      | some files =>
        .ok ((pageFiles files).enum.map
          (fun p => ⟨p.1, p.2.1, contentUrl document_id p.1⟩))

/-- `get_zip_page_content` (main.py lines 204-217).  No directory check
here: globbing an absent directory yields no entries.  The page index is
an `Int` (FastAPI parses negative path parameters). -/
def get_zip_page_content (doc : Option Document)
    (dir : Option (List (String × List Nat))) (page_index : Int) :
    Except HTTPError (String × List Nat) :=
  match doc with
  | none => .error ⟨404, "Document not found"⟩
  | some d =>
    if d.mime_type ≠ "application/zip" then .error ⟨400, "Document is not ZIP"⟩
    else
      let pages := (match dir with | none => [] | some files => pageFiles files)
      if page_index < 0 || (pages.length : Int) ≤ page_index then
        .error ⟨404, "Page not found"⟩
      else
        .ok (pages.getD page_index.toNat ("", []))

/-! ## Order-theoretic facts about the comparison functions -/

theorem listLT_asymm {as bs : List Char} (h : List.lt as bs) : ¬ List.lt bs as := by
  rw [List.lt_iff_lex_lt] at h ⊢
  exact asymm h

theorem listLT_irrefl (as : List Char) : ¬ List.lt as as := by
  rw [List.lt_iff_lex_lt]
  exact irrefl_of (List.Lex (· < ·)) as

theorem strLE_refl (s : String) : strLE s s = true := by
  show (!(listLTb s.data s.data)) = true
  rw [Bool.not_eq_true', Bool.eq_false_iff, Ne, listLTb_iff]
  exact listLT_irrefl _

theorem strLE_of_listLT {s t : String} (h : List.lt s.data t.data) : strLE s t = true := by
  show (!(listLTb t.data s.data)) = true
  rw [Bool.not_eq_true', Bool.eq_false_iff, Ne, listLTb_iff]
  exact listLT_asymm h

theorem keyLE_trans (a b c : ZipEntry) (hab : keyLE a b) (hbc : keyLE b c) :
    keyLE a c := by
  simp only [keyLE, strLE_iff] at hab hbc ⊢
  exact le_trans hab hbc

theorem keyLE_total (a b : ZipEntry) : keyLE a b || keyLE b a := by
  simp only [keyLE, Bool.or_eq_true, strLE_iff]
  exact le_total _ _

theorem nameLE_trans (a b c : String × List Nat) (hab : nameLE a b) (hbc : nameLE b c) :
    nameLE a c := by
  simp only [nameLE, strLE_iff] at hab hbc ⊢
  exact le_trans hab hbc

theorem nameLE_total (a b : String × List Nat) : nameLE a b || nameLE b a := by
  simp only [nameLE, Bool.or_eq_true, strLE_iff]
  exact le_total _ _

/-! ## Lexicographic facts about padded decimal numerals -/

/-- The exactly-`w`-digit decimal numeral of `n` (leading zeros kept). -/
def digitsPad : Nat → Nat → List Char
  | 0, _ => []
  | w + 1, n => digitsPad w (n / 10) ++ [Nat.digitChar (n % 10)]

theorem digitsPad_length : ∀ w n, (digitsPad w n).length = w
  | 0, _ => rfl
  | w + 1, n => by simp [digitsPad, digitsPad_length w]

theorem digitChar_mono : ∀ k < 10, ∀ m < k, Nat.digitChar m < Nat.digitChar k := by decide

/-- Padding the decimal digits to width `w` gives the fixed-width numeral. -/
theorem replicate_natDigits_eq_digitsPad :
    ∀ w n, 0 < w → n < 10 ^ w →
      List.replicate (w - (natDigits n).length) '0' ++ natDigits n = digitsPad w n := by
  intro w
  induction w with
  | zero => omega
  | succ w ih =>
    intro n _ hn
    by_cases h10 : n < 10
    · rw [natDigits_lt h10]
      by_cases hw : w = 0
      · subst hw
        simp [digitsPad, Nat.mod_eq_of_lt h10]
      · have h0 : List.replicate (w - (natDigits 0).length) '0' ++ natDigits 0 =
            digitsPad w 0 := ih 0 (by omega) (Nat.pos_pow_of_pos w (by omega))
        rw [natDigits_lt (by omega)] at h0
        simp only [digitsPad]
        rw [Nat.div_eq_of_lt h10, Nat.mod_eq_of_lt h10, ← h0]
        have : (Nat.digitChar 0) = '0' := rfl
        simp only [List.length_cons, List.length_nil, this]
        rw [show List.replicate (w - 1) '0' ++ ['0'] = List.replicate (w - 1 + 1) '0' from
          (List.replicate_succ' _ _).symm]
        have : w - 1 + 1 = w + 1 - 1 := by omega
        rw [this]
    · have hw : 0 < w := by
        by_contra hw
        have : w = 0 := by omega
        subst this
        simp at hn
        omega
      have hdiv : n / 10 < 10 ^ w := by
        rw [Nat.div_lt_iff_lt_mul (by omega)]
        calc n < 10 ^ (w + 1) := hn
        _ = 10 ^ w * 10 := by rw [Nat.pow_succ]
      have ihd := ih (n / 10) hw hdiv
      rw [natDigits_ge (by omega : 10 ≤ n)]
      simp only [List.length_append, List.length_cons, List.length_nil]
      have hc : w + 1 - ((natDigits (n / 10)).length + 1) =
          w - (natDigits (n / 10)).length := by omega
      rw [hc, ← List.append_assoc, ihd]
      rfl

/-- Strict monotonicity of fixed-width numerals in the lexicographic
character order. -/
theorem listLT_append_left :
    ∀ (as : List Char) {xs ys}, List.lt xs ys → List.lt (as ++ xs) (as ++ ys)
  | [], _, _, h => h
  | a :: as, _, _, h =>
    List.lt.tail (lt_irrefl a) (lt_irrefl a) (listLT_append_left as h)

theorem listLT_append_congr {as bs : List Char} (xs ys : List Char)
    (hlen : as.length = bs.length) (h : List.lt as bs) : List.lt (as ++ xs) (bs ++ ys) := by
  induction h with
  | nil b bs => simp at hlen
  | head as bs hab => exact List.lt.head _ _ hab
  | tail h₁ h₂ _ ih =>
    simp only [List.length_cons, Nat.succ.injEq] at hlen
    exact List.lt.tail h₁ h₂ (ih hlen)

theorem digitsPad_lt : ∀ w {i j : Nat}, i < j → j < 10 ^ w →
    List.lt (digitsPad w i) (digitsPad w j) := by
  intro w
  induction w with
  | zero => intro i j hij hj; omega
  | succ w ih =>
    intro i j hij hj
    simp only [digitsPad]
    by_cases hdiv : i / 10 < j / 10
    · have hj' : j / 10 < 10 ^ w := by
        rw [Nat.div_lt_iff_lt_mul (by omega)]
        calc j < 10 ^ (w + 1) := hj
        _ = 10 ^ w * 10 := by rw [Nat.pow_succ]
      exact listLT_append_congr _ _
        (by rw [digitsPad_length, digitsPad_length]) (ih hdiv hj')
    · have heq : i / 10 = j / 10 := by
        have : i / 10 ≤ j / 10 := Nat.div_le_div_right (Nat.le_of_lt hij)
        omega
      rw [heq]
      apply listLT_append_left
      exact List.lt.head _ _ (digitChar_mono (j % 10) (by omega) (i % 10) (by omega))

theorem pageName_lt {i j : Nat} (hij : i < j) (hj : j < 1000000) :
    List.lt (pageName i).data (pageName j).data := by
  have e : ∀ n, (pageName n).data = fmt06 n ++ ".jpg".data := fun _ => rfl
  have f : ∀ n, n < 1000000 → fmt06 n = digitsPad 6 n := by
    intro n hn
    exact replicate_natDigits_eq_digitsPad 6 n (by omega) (by norm_num; omega)
  rw [e, e, f i (by omega), f j hj]
  exact listLT_append_congr _ _
    (by rw [digitsPad_length, digitsPad_length]) (digitsPad_lt 6 hij (by norm_num; omega))

/-! ## Facts about the extractor -/

theorem sortedMembers_perm (es : List ZipEntry) :
    (sortedMembers es).Perm (candidates es) :=
  List.mergeSort_perm _ _

theorem sortedMembers_length (es : List ZipEntry) :
    (sortedMembers es).length = (candidates es).length :=
  (sortedMembers_perm es).length_eq

theorem enum_map_fst {α : Type} (l : List α) :
    l.enum.map Prod.fst = List.range l.length := by
  rw [List.enum_eq_enumFrom, List.enumFrom_map_fst, List.range_eq_range']

theorem enum_map_snd {α : Type} (l : List α) : l.enum.map Prod.snd = l := by
  rw [List.enum_eq_enumFrom, List.enumFrom_map_snd]

/-- On a successful run the extractor writes the enumeration of the sorted
members under their page names and returns their original basenames. -/
theorem extract_ok (es : List ZipEntry) (h : candidates es ≠ []) :
    extract_zip_jpgs es =
      ((sortedMembers es).enum.map (fun p => (pageName p.1, p.2.data)),
       .ok ((sortedMembers es).map (fun m => pathName m.filename))) := by
  rw [extract_zip_jpgs, if_neg]
  simp only [List.isEmpty_eq_true]
  exact h

theorem extract_pages_map_fst (es : List ZipEntry) (h : candidates es ≠ []) :
    ((extract_zip_jpgs es).1).map Prod.fst =
      (List.range (candidates es).length).map pageName := by
  rw [extract_ok es h]
  show ((sortedMembers es).enum.map (fun p => (pageName p.1, p.2.data))).map Prod.fst = _
  rw [List.map_map]
  have h1 : (Prod.fst ∘ fun p : Nat × ZipEntry => (pageName p.1, p.2.data)) =
      (pageName ∘ Prod.fst) := rfl
  rw [h1, ← List.map_map, enum_map_fst, sortedMembers_length]

theorem extract_pages_map_snd (es : List ZipEntry) (h : candidates es ≠ []) :
    ((extract_zip_jpgs es).1).map Prod.snd = (sortedMembers es).map ZipEntry.data := by
  rw [extract_ok es h]
  show ((sortedMembers es).enum.map (fun p => (pageName p.1, p.2.data))).map Prod.snd = _
  rw [List.map_map]
  have h1 : (Prod.snd ∘ fun p : Nat × ZipEntry => (pageName p.1, p.2.data)) =
      (ZipEntry.data ∘ Prod.snd) := rfl
  rw [h1, ← List.map_map, enum_map_snd]

theorem extract_pages_length (es : List ZipEntry) (h : candidates es ≠ []) :
    ((extract_zip_jpgs es).1).length = (candidates es).length := by
  have := congrArg List.length (extract_pages_map_fst es h)
  simpa using this

/-! ## Concrete example archives, with their extractions evaluated -/

/-- A two-member archive exercising case-insensitive suffixes and sort. -/
def exEntries : List ZipEntry :=
  [⟨"B.JPG", false, [1]⟩, ⟨"a.jpg", false, [2]⟩]

unseal List.merge List.mergeSort in
theorem exEntries_extract_eval :
    extract_zip_jpgs exEntries =
      ([("000000.jpg", [2]), ("000001.jpg", [1])], .ok ["a.jpg", "B.JPG"]) := by
  decide

/-! ## The claims about the extractor -/

/-- C1: for every archive with at least one JPG entry, extraction succeeds
and writes exactly one page per JPG entry, named `000000.jpg`,
`000001.jpg`, … — the zero-padded indices `0..count-1` with no gaps — and
the number of pages equals the number of JPG entries (directory entries
and non-JPG entries contribute nothing, being excluded from
`candidates`). -/
theorem C1_extraction_page_sequence (es : List ZipEntry) (h : candidates es ≠ []) :
    (∃ names, (extract_zip_jpgs es).2 = .ok names) ∧
    ((extract_zip_jpgs es).1).map Prod.fst =
      (List.range (candidates es).length).map pageName ∧
    ((extract_zip_jpgs es).1).length = (candidates es).length := by
  refine ⟨?_, extract_pages_map_fst es h, extract_pages_length es h⟩
  rw [extract_ok es h]
  exact ⟨_, rfl⟩

theorem C1_extraction_page_sequence_witness :
    candidates exEntries ≠ [] ∧
    ((∃ names, (extract_zip_jpgs exEntries).2 = .ok names) ∧
      ((extract_zip_jpgs exEntries).1).map Prod.fst =
        (List.range (candidates exEntries).length).map pageName ∧
      ((extract_zip_jpgs exEntries).1).length = (candidates exEntries).length) :=
  ⟨by decide, C1_extraction_page_sequence exEntries (by decide)⟩

/-- C2: an archive with no JPG entry makes the extractor fail with
HTTP 400 having written no page file, and an upload of such an archive is
rejected with that 400 — the error outcome carries no `Document`, so no
metadata row is created. -/
theorem C2_empty_zip_rejected (es : List ZipEntry) (title stored0 : String)
    (file : UploadFile) (hes : candidates es = []) (hfile : file.zipEntries = es)
    (hzip : is_zip_upload file = true) :
    extract_zip_jpgs es = ([], .error ⟨400, "ZIP must contain at least one JPG file"⟩) ∧
    upload_document title stored0 file =
      .error ⟨400, "ZIP must contain at least one JPG file"⟩ := by
  have hex : extract_zip_jpgs es =
      ([], .error ⟨400, "ZIP must contain at least one JPG file"⟩) := by
    rw [extract_zip_jpgs, if_pos]
    simp [hes]
  refine ⟨hex, ?_⟩
  rw [upload_document, if_neg (by simp [hzip]), if_pos hzip, hfile, hex]

/-- An upload of a ZIP archive containing a single text file. -/
def exEmptyZipUpload : UploadFile :=
  ⟨some "a.zip", "application/zip", [9], [⟨"readme.txt", false, [5]⟩]⟩

theorem C2_empty_zip_rejected_witness :
    (candidates [ZipEntry.mk "readme.txt" false [5]] = [] ∧
      exEmptyZipUpload.zipEntries = [ZipEntry.mk "readme.txt" false [5]] ∧
      is_zip_upload exEmptyZipUpload = true) ∧
    (extract_zip_jpgs [ZipEntry.mk "readme.txt" false [5]] =
      ([], .error ⟨400, "ZIP must contain at least one JPG file"⟩) ∧
    upload_document "t" "s" exEmptyZipUpload =
      .error ⟨400, "ZIP must contain at least one JPG file"⟩) :=
  ⟨⟨by decide, by decide, by decide⟩,
    C2_empty_zip_rejected [ZipEntry.mk "readme.txt" false [5]] "t" "s" exEmptyZipUpload
      (by decide) (by decide) (by decide)⟩

/-- C3: the surviving entries are ordered by the lowercased base filename
(`sortKey`, the last path component lowercased) ascending, as a
permutation of the candidate set; in particular the archive with members
`B.JPG`, `a.jpg` extracts `a.jpg` as index 0 and `B.JPG` as index 1. -/
theorem C3_sorted_by_casefold_basename (es : List ZipEntry) :
    (sortedMembers es).Pairwise (fun a b => sortKey a ≤ sortKey b) ∧
    (sortedMembers es).Perm (candidates es) ∧
    (extract_zip_jpgs exEntries).2 = .ok ["a.jpg", "B.JPG"] ∧
    (extract_zip_jpgs exEntries).1 = [("000000.jpg", [2]), ("000001.jpg", [1])] := by
  refine ⟨?_, sortedMembers_perm es, ?_, ?_⟩
  · have hp := List.sorted_mergeSort keyLE_trans keyLE_total (candidates es)
    exact hp.imp (fun h => (strLE_iff _ _).mp h)
  · rw [exEntries_extract_eval]
  · rw [exEntries_extract_eval]

/-- C4: the bytes written to each page file are exactly the raw bytes of
the source entry assigned that index (the page list is the sorted-member
list with `.data` copied verbatim, a permutation of the candidate
entries' bytes), and the returned original names follow the index
order. -/
theorem C4_roundtrip_bytes_and_names (es : List ZipEntry) (h : candidates es ≠ []) :
    (extract_zip_jpgs es).2 =
      .ok ((sortedMembers es).map (fun m => pathName m.filename)) ∧
    ((extract_zip_jpgs es).1).map Prod.snd = (sortedMembers es).map ZipEntry.data ∧
    (((extract_zip_jpgs es).1).map Prod.snd).Perm
      ((candidates es).map ZipEntry.data) := by
  refine ⟨?_, extract_pages_map_snd es h, ?_⟩
  · rw [extract_ok es h]
  · rw [extract_pages_map_snd es h]
    exact (sortedMembers_perm es).map _

theorem C4_roundtrip_bytes_and_names_witness :
    candidates exEntries ≠ [] ∧
    ((extract_zip_jpgs exEntries).2 =
      .ok ((sortedMembers exEntries).map (fun m => pathName m.filename)) ∧
    ((extract_zip_jpgs exEntries).1).map Prod.snd =
      (sortedMembers exEntries).map ZipEntry.data ∧
    (((extract_zip_jpgs exEntries).1).map Prod.snd).Perm
      ((candidates exEntries).map ZipEntry.data)) :=
  ⟨by decide, C4_roundtrip_bytes_and_names exEntries (by decide)⟩

/-- C9: Python's `sorted` is stable, so entries whose lowercased basenames
tie keep their archive enumeration order: for every key `k`, the
subsequence of sorted members with key `k` is exactly the subsequence of
candidates with key `k`, in original order — extraction is a function of
the entry list, hence deterministic. -/
theorem C9_stable_tie_break (es : List ZipEntry) (k : String) :
    (sortedMembers es).filter (fun e => sortKey e == k) =
      (candidates es).filter (fun e => sortKey e == k) := by
  have hpw : ((candidates es).filter (fun e => sortKey e == k)).Pairwise
      (fun a b => keyLE a b) := by
    apply List.pairwise_of_forall_mem_list
    intro a ha b hb
    rw [List.mem_filter] at ha hb
    have hka : sortKey a = k := by simpa using ha.2
    have hkb : sortKey b = k := by simpa using hb.2
    show keyLE a b = true
    rw [keyLE, hka, hkb]
    exact strLE_refl k
  have hsub : List.Sublist ((candidates es).filter (fun e => sortKey e == k))
      (sortedMembers es) :=
    List.sublist_mergeSort keyLE_trans keyLE_total hpw (List.filter_sublist _)
  have hidem : ((candidates es).filter (fun e => sortKey e == k)).filter
      (fun e => sortKey e == k) = (candidates es).filter (fun e => sortKey e == k) := by
    rw [List.filter_filter]
    simp
  have hfil : List.Sublist ((candidates es).filter (fun e => sortKey e == k))
      ((sortedMembers es).filter (fun e => sortKey e == k)) := by
    have h2 := hsub.filter (fun e => sortKey e == k)
    rwa [hidem] at h2
  have hperm : ((sortedMembers es).filter (fun e => sortKey e == k)).Perm
      ((candidates es).filter (fun e => sortKey e == k)) :=
    (sortedMembers_perm es).filter _
  exact (hfil.eq_of_length hperm.length_eq.symm).symm

/-! ## Facts about page listing -/

theorem globJpg_pageName (i : Nat) : globJpg (pageName i) = true := by
  show (".jpg".data.isSuffixOf (pageName i).data) = true
  rw [List.isSuffixOf_iff_suffix]
  exact ⟨fmt06 i, rfl⟩

/-- Every file the extractor writes matches the `*.jpg` glob. -/
theorem extract_pages_filter_glob (es : List ZipEntry) (h : candidates es ≠ []) :
    ((extract_zip_jpgs es).1).filter (fun p => globJpg p.1) = (extract_zip_jpgs es).1 := by
  rw [List.filter_eq_self]
  intro a ha
  have hmem : a.1 ∈ ((extract_zip_jpgs es).1).map Prod.fst :=
    List.mem_map_of_mem _ ha
  rw [extract_pages_map_fst es h] at hmem
  obtain ⟨i, _, hi⟩ := List.mem_map.mp hmem
  rw [← hi]
  exact globJpg_pageName i

/-- Up to a million pages, the written page names are strictly increasing,
so the page list is sorted by filename. -/
theorem extract_pages_sorted (es : List ZipEntry) (h : candidates es ≠ [])
    (hN : (candidates es).length ≤ 1000000) :
    ((extract_zip_jpgs es).1).Pairwise (fun a b => nameLE a b) := by
  have hpw : (((extract_zip_jpgs es).1).map Prod.fst).Pairwise
      (fun s t => strLE s t = true) := by
    rw [extract_pages_map_fst es h, List.pairwise_map, List.pairwise_iff_getElem]
    intro i j hi hj hij
    simp only [List.length_range] at hi hj
    simp only [List.getElem_range]
    exact strLE_of_listLT (pageName_lt hij (by omega))
  rw [List.pairwise_map] at hpw
  exact hpw.imp (fun h => h)

/-- Re-globbing and re-sorting the extractor's output is the identity
(when at most a million pages were written). -/
theorem pageFiles_extract (es : List ZipEntry) (h : candidates es ≠ [])
    (hN : (candidates es).length ≤ 1000000) :
    pageFiles ((extract_zip_jpgs es).1) = (extract_zip_jpgs es).1 := by
  rw [pageFiles, extract_pages_filter_glob es h]
  exact List.mergeSort_of_sorted (extract_pages_sorted es h hN)

/-- C5 (amended: for extractions of at most 1000000 JPG entries — beyond
that, `f"{index:06d}"` exceeds six digits and the lexical order of the
filenames no longer matches the numeric index order): listing a freshly
extracted page directory returns one entry per page with indices
`0..N-1` in extraction order, each index holding exactly the file the
extractor assigned that index. -/
theorem C5_listing_matches_extraction (es : List ZipEntry) (docId : Nat) (d : Document)
    (hmime : d.mime_type = "application/zip")
    (h : candidates es ≠ []) (hN : (candidates es).length ≤ 1000000) :
    list_zip_pages docId (some d) (some ((extract_zip_jpgs es).1)) =
      .ok (((extract_zip_jpgs es).1).enum.map
        (fun p => ⟨p.1, p.2.1, contentUrl docId p.1⟩)) ∧
    ((extract_zip_jpgs es).1).length = (candidates es).length := by
  refine ⟨?_, extract_pages_length es h⟩
  simp only [list_zip_pages]
  rw [if_neg (by simp [hmime]), pageFiles_extract es h hN]

theorem C5_listing_matches_extraction_witness :
    ((⟨"t", "application/zip", ".zip", "s"⟩ : Document).mime_type = "application/zip" ∧
      candidates exEntries ≠ [] ∧ (candidates exEntries).length ≤ 1000000) ∧
    (list_zip_pages 7 (some ⟨"t", "application/zip", ".zip", "s"⟩)
        (some ((extract_zip_jpgs exEntries).1)) =
      .ok (((extract_zip_jpgs exEntries).1).enum.map
        (fun p => ⟨p.1, p.2.1, contentUrl 7 p.1⟩)) ∧
    ((extract_zip_jpgs exEntries).1).length = (candidates exEntries).length) :=
  ⟨⟨rfl, by decide, by decide⟩,
    C5_listing_matches_extraction exEntries 7 ⟨"t", "application/zip", ".zip", "s"⟩
      rfl (by decide) (by decide)⟩

/-- The ok-list of a page listing, mapped to its filenames, is the page
directory's sorted filename list. -/
theorem enum_pageread_names (docId : Nat) (l : List (String × List Nat)) :
    (l.enum.map (fun p => ZipPageRead.mk p.1 p.2.1 (contentUrl docId p.1))).map
      (fun z => z.filename) = l.map Prod.fst := by
  rw [List.map_map]
  have h1 : ((fun z : ZipPageRead => z.filename) ∘
      fun p : Nat × (String × List Nat) => ZipPageRead.mk p.1 p.2.1 (contentUrl docId p.1)) =
      ((fun q : String × List Nat => q.1) ∘ Prod.snd) := rfl
  rw [h1, ← List.map_map, enum_map_snd]

/-- An archive with more than a million JPG members (duplicate names are
legal in a ZIP archive). -/
def entriesBig : List ZipEntry := List.replicate 1000001 ⟨"a.jpg", false, []⟩

/-- C5 counterexample: for the 1000001-entry archive the extractor writes
`…, 999999.jpg, 1000000.jpg`, but `"1000000.jpg" < "999999.jpg"`
lexically, so the listing no longer enumerates the pages in extraction
order and the claimed equality fails. -/
theorem C5_counterexample_big_archive :
    ¬ (list_zip_pages 1 (some ⟨"t", "application/zip", ".zip", "s"⟩)
        (some ((extract_zip_jpgs entriesBig).1)) =
      .ok (((extract_zip_jpgs entriesBig).1).enum.map
        (fun p => ⟨p.1, p.2.1, contentUrl 1 p.1⟩))) := by
  intro hEq
  have hcand : candidates entriesBig = entriesBig := by
    rw [candidates, entriesBig]
    exact List.filter_replicate_of_pos (by decide)
  have hlen : (candidates entriesBig).length = 1000001 := by
    rw [hcand, entriesBig, List.length_replicate]
  have hne : candidates entriesBig ≠ [] := by
    intro h0
    rw [h0] at hlen
    simp at hlen
  have hL : list_zip_pages 1 (some ⟨"t", "application/zip", ".zip", "s"⟩)
      (some ((extract_zip_jpgs entriesBig).1)) =
      .ok ((pageFiles ((extract_zip_jpgs entriesBig).1)).enum.map
        (fun p => ⟨p.1, p.2.1, contentUrl 1 p.1⟩)) := by
    simp only [list_zip_pages]
    rw [if_neg (by simp)]
  rw [hL] at hEq
  have hnames : (pageFiles ((extract_zip_jpgs entriesBig).1)).map Prod.fst =
      ((extract_zip_jpgs entriesBig).1).map Prod.fst := by
    have h2 := congrArg (List.map (fun z : ZipPageRead => z.filename)) (Except.ok.inj hEq)
    rwa [enum_pageread_names, enum_pageread_names] at h2
  have hsorted : ((pageFiles ((extract_zip_jpgs entriesBig).1)).map Prod.fst).Pairwise
      (fun s t => strLE s t = true) := by
    rw [pageFiles, extract_pages_filter_glob entriesBig hne, List.pairwise_map]
    have hs := List.sorted_mergeSort nameLE_trans nameLE_total ((extract_zip_jpgs entriesBig).1)
    exact hs.imp (fun h => h)
  rw [hnames, extract_pages_map_fst entriesBig hne, hlen] at hsorted
  have hcontr := List.pairwise_iff_getElem.mp hsorted 999999 1000000
    (by simp only [List.length_map, List.length_range]; omega)
    (by simp only [List.length_map, List.length_range]; omega)
    (by omega)
  simp only [List.getElem_map, List.getElem_range] at hcontr
  have hfalse : strLE (pageName 999999) (pageName 1000000) = false := by decide
  rw [hfalse] at hcontr
  exact Bool.false_ne_true hcontr

/-! ## Page content, listing errors, and the upload classifier -/

/-- C6: for a ZIP document whose page directory sorts to `N` pages, a page
content request fails with 404 exactly when the index lies outside
`[0, N)`; inside the range it returns the page file at that sorted
position. -/
theorem C6_page_content_bounds (d : Document) (dir : List (String × List Nat))
    (idx : Int) (hmime : d.mime_type = "application/zip") :
    ((idx < 0 ∨ ((pageFiles dir).length : Int) ≤ idx) →
      get_zip_page_content (some d) (some dir) idx = .error ⟨404, "Page not found"⟩) ∧
    (0 ≤ idx → idx < ((pageFiles dir).length : Int) →
      get_zip_page_content (some d) (some dir) idx =
        .ok ((pageFiles dir).getD idx.toNat ("", []))) := by
  constructor
  · intro hout
    simp only [get_zip_page_content]
    rw [if_neg (by simp [hmime]), if_pos]
    simp only [Bool.or_eq_true, decide_eq_true_eq]
    omega
  · intro h0 hlt
    simp only [get_zip_page_content]
    rw [if_neg (by simp [hmime]), if_neg]
    simp only [Bool.or_eq_true, decide_eq_true_eq]
    omega

unseal List.merge List.mergeSort in
theorem pageFiles_singleton_eval :
    pageFiles [("000000.jpg", [1])] = [("000000.jpg", [1])] := by decide

theorem C6_page_content_bounds_witness :
    (⟨"t", "application/zip", ".zip", "s"⟩ : Document).mime_type = "application/zip" ∧
    get_zip_page_content (some ⟨"t", "application/zip", ".zip", "s"⟩)
      (some [("000000.jpg", [1])]) 1 = .error ⟨404, "Page not found"⟩ ∧
    get_zip_page_content (some ⟨"t", "application/zip", ".zip", "s"⟩)
      (some [("000000.jpg", [1])]) 0 = .ok ("000000.jpg", [1]) := by
  refine ⟨rfl, ?_, ?_⟩
  · exact (C6_page_content_bounds ⟨"t", "application/zip", ".zip", "s"⟩
      [("000000.jpg", [1])] 1 rfl).1
      (by rw [pageFiles_singleton_eval]; right; decide)
  · have h := (C6_page_content_bounds ⟨"t", "application/zip", ".zip", "s"⟩
      [("000000.jpg", [1])] 0 rfl).2 (by decide)
      (by rw [pageFiles_singleton_eval]; decide)
    rw [pageFiles_singleton_eval] at h
    exact h

/-- A document row of PDF type. -/
def pdfDoc : Document := ⟨"t", "application/pdf", ".pdf", "x"⟩

/-- C7 counterexample: listing the pages of an existing non-ZIP document
does not return 404 — the code raises 400 ("Document is not ZIP"). -/
theorem C7_counterexample_non_zip_is_400 :
    list_zip_pages 1 (some pdfDoc) (some []) = .error ⟨400, "Document is not ZIP"⟩ ∧
    ∀ e : HTTPError, list_zip_pages 1 (some pdfDoc) (some []) = .error e →
      e.status ≠ 404 := by
  constructor
  · simp only [list_zip_pages]
    rw [if_pos (by decide)]
  · intro e he
    simp only [list_zip_pages] at he
    rw [if_pos (by decide)] at he
    have := (Except.error.inj he).symm
    rw [this]
    decide

/-- C7 (amended): listing fails with 400 when the referenced document
exists but is not of ZIP type, with 404 when its page directory is
absent, and with 404 when the document row does not exist. -/
theorem C7_listing_errors (docId : Nat) (d : Document)
    (dir : Option (List (String × List Nat))) :
    (d.mime_type ≠ "application/zip" →
      list_zip_pages docId (some d) dir = .error ⟨400, "Document is not ZIP"⟩) ∧
    (d.mime_type = "application/zip" →
      list_zip_pages docId (some d) none = .error ⟨404, "ZIP pages not found"⟩) ∧
    list_zip_pages docId none dir = .error ⟨404, "Document not found"⟩ := by
  refine ⟨?_, ?_, rfl⟩
  · intro h
    simp only [list_zip_pages]
    rw [if_pos h]
  · intro h
    simp only [list_zip_pages]
    rw [if_neg (by simp [h])]

theorem C7_listing_errors_witness :
    (pdfDoc.mime_type ≠ "application/zip" ∧
      list_zip_pages 2 (some pdfDoc) (some []) = .error ⟨400, "Document is not ZIP"⟩) ∧
    list_zip_pages 2 (some ⟨"t", "application/zip", ".zip", "s"⟩) none =
      .error ⟨404, "ZIP pages not found"⟩ ∧
    list_zip_pages 2 none (some []) = .error ⟨404, "Document not found"⟩ :=
  ⟨⟨by decide, (C7_listing_errors 2 pdfDoc (some [])).1 (by decide)⟩,
    (C7_listing_errors 2 ⟨"t", "application/zip", ".zip", "s"⟩ (some [])).2.1 rfl,
    (C7_listing_errors 2 pdfDoc (some [])).2.2⟩

/-- C8: the classifier recognises a ZIP exactly when the declared
content-type is in the allow-set or the filename extension lowercases to
`.zip`; an upload whose content-type is outside
`{application/pdf, image/jpeg} ∪ ZIP_MIME_TYPES` and which is not
ZIP-by-extension is rejected with 400 and neither stores a file nor
creates a row (the error outcome carries no `Document` and no files). -/
theorem C8_classifier (file : UploadFile) (title stored0 : String) :
    (is_zip_upload file = true ↔
      (file.content_type ∈ ZIP_MIME_TYPES ∨
        lowerStr (pathSuffix (file.filename.getD "")) = ".zip")) ∧
    (file.content_type ∉ allowedTypes →
      lowerStr (pathSuffix (file.filename.getD "")) ≠ ".zip" →
      upload_document title stored0 file =
        .error ⟨400, "Only PDF/JPG/ZIP(JPG) are supported"⟩) := by
  have hclass : is_zip_upload file = true ↔
      (file.content_type ∈ ZIP_MIME_TYPES ∨
        lowerStr (pathSuffix (file.filename.getD "")) = ".zip") := by
    rw [is_zip_upload, Bool.or_eq_true, List.contains_iff_exists_mem_beq]
    constructor
    · rintro (⟨a, ha, hab⟩ | h)
      · rw [beq_iff_eq] at hab
        exact Or.inl (hab ▸ ha)
      · exact Or.inr (by rwa [beq_iff_eq] at h)
    · rintro (h | h)
      · exact Or.inl ⟨_, h, by rw [beq_iff_eq]⟩
      · exact Or.inr (by rwa [beq_iff_eq])
  refine ⟨hclass, ?_⟩
  intro hct hext
  have hzipset : file.content_type ∉ ZIP_MIME_TYPES := by
    intro hmem
    exact hct (by simp [allowedTypes, hmem])
  have hzip : is_zip_upload file = false := by
    rw [Bool.eq_false_iff, Ne, hclass]
    rintro (h | h)
    · exact hzipset h
    · exact hext h
  have hcontains : allowedTypes.contains file.content_type = false := by
    rw [Bool.eq_false_iff, Ne, List.contains_iff_exists_mem_beq]
    rintro ⟨a, ha, hab⟩
    rw [beq_iff_eq] at hab
    exact hct (hab ▸ ha)
  rw [upload_document, if_pos]
  rw [hcontains, hzip]
  rfl

/-- An upload that is neither PDF, JPEG, nor ZIP in any sense. -/
def exPlainUpload : UploadFile := ⟨some "a.tar", "text/plain", [1], []⟩

theorem C8_classifier_witness :
    (exPlainUpload.content_type ∉ allowedTypes ∧
      lowerStr (pathSuffix (exPlainUpload.filename.getD "")) ≠ ".zip") ∧
    upload_document "t" "s" exPlainUpload =
      .error ⟨400, "Only PDF/JPG/ZIP(JPG) are supported"⟩ :=
  ⟨⟨by decide, by decide⟩,
    (C8_classifier exPlainUpload "t" "s").2 (by decide) (by decide)⟩

/-- C10: the ZIP branch precedes the PDF branch, so any upload the
classifier recognises as ZIP — including one whose declared content-type
is `application/pdf` or an allow-set variant, as long as its name ends in
`.zip` or its type is in the allow-set — is stored (when its archive has
JPG entries) as a document with mime type exactly `"application/zip"` and
extension `".zip"`. -/
theorem C10_zip_precedence (file : UploadFile) (title stored0 : String)
    (hzip : is_zip_upload file = true) (h : candidates file.zipEntries ≠ []) :
    ∃ pages, upload_document title stored0 file =
      .ok (⟨title, "application/zip", ".zip", stored0⟩, pages) := by
  rw [upload_document, if_neg (by simp [hzip]), if_pos hzip, extract_ok _ h]
  exact ⟨_, rfl⟩

/-- A PDF-typed upload whose filename nonetheless ends in `.zip`. -/
def exPdfNamedZip : UploadFile :=
  ⟨some "x.zip", "application/pdf", [7], [⟨"p.jpg", false, [3]⟩]⟩

theorem C10_zip_precedence_witness :
    (is_zip_upload exPdfNamedZip = true ∧ candidates exPdfNamedZip.zipEntries ≠ []) ∧
    (∃ pages, upload_document "t" "s" exPdfNamedZip =
      .ok (⟨"t", "application/zip", ".zip", "s"⟩, pages)) :=
  ⟨⟨by decide, by decide⟩,
    C10_zip_precedence exPdfNamedZip "t" "s" (by decide) (by decide)⟩

end Archivea
